import Mathlib

/-!
Verification of the Fertile Life simulation kernel (`src/simWorker.ts`).

The worker file contains two revisions; the later revision (the one with
`reset` and `setParams` handlers) is modeled in full, and the `clear`
handler of the earlier revision is included as well, since both revisions
are part of the repository and the claims reference both.

Modeling conventions:
  - JS `number` values (all `Float32Array` / float parameters) are modeled
    as exact rationals `ℚ`; `Uint8Array` entries as `ℕ` reduced mod 256 on
    store where the stored value is not already below 256 by construction.
  - Typed arrays of length `N` are modeled as total functions from `ℤ`;
    values outside the index range `[0, N)` are junk that no modeled
    operation reads for the grids the claims quantify over.
  - `N` is always `W * H` in the source (set together in `ensureArrays`),
    so it is a derived definition here rather than a stored field.
  - In-place mutation loops become left folds carrying the mutated buffer,
    preserving the source's write order.
-/

namespace FertileLife

/-- Pointwise functional update of a buffer, modeling a single in-place
array store `buf[j] = v`. -/
def upd {α : Type} (f : ℤ → α) (j : ℤ) (v : α) : ℤ → α :=
  fun k => if k = j then v else f k

/-- Kernel state: the module-level mutable variables of `simWorker.ts`
(second revision): the `initialized` flag (field `inited`), grid dimensions,
the liveness buffers `A`/`A2`, the fertility buffer `F`, the reused
neighbor scratch buffers `Nsum`/`Fsum`, the generation counter, and the
runtime-adjustable parameters. -/
structure KState where
  inited : Bool
  W : ℤ
  H : ℤ
  A : ℤ → ℕ
  F : ℤ → ℚ
  A2 : ℤ → ℕ
  Nsum : ℤ → ℕ
  Fsum : ℤ → ℚ
  gen : ℕ
  f0 : ℚ
  tau : ℚ
  sigma : ℚ
  alpha : ℚ
  beta : ℚ
  kappa : ℚ
  d : ℚ
  delta : ℚ
  w0 : ℚ
  w1 : ℚ

/-- Cell count `N = W * H` (assigned exactly so in `ensureArrays`). -/
def KState.N (s : KState) : ℤ := s.W * s.H

/-- Flat index of cell `(x, y)`: source `idx(x, y) = y * W + x`. -/
def idx (s : KState) (x y : ℤ) : ℤ := y * s.W + x

/-- The eight toroidal neighbor indices `p0 .. p8` (center excluded) of
cell `(x, y)`, with the source's wrap computation for `xl/xr/yu/yd`. -/
def nbhd (s : KState) (x y : ℤ) : List ℤ :=
  let yu := if y = 0 then s.H - 1 else y - 1
  let yd := if y = s.H - 1 then 0 else y + 1
  let xl := if x = 0 then s.W - 1 else x - 1
  let xr := if x = s.W - 1 then 0 else x + 1
  [idx s xl yu, idx s x yu, idx s xr yu,
   idx s xl y, idx s xr y,
   idx s xl yd, idx s x yd, idx s xr yd]

/-- Neighbor-alive count `n` of cell `(x, y)`: the sum of the eight
neighbor liveness values read from the pre-tick `A`. -/
def nsumSpec (s : KState) (x y : ℤ) : ℕ :=
  ((nbhd s x y).map s.A).sum

/-- Neighbor-fertility sum `fs` of cell `(x, y)`: the sum of the eight
neighbor fertility values read from the pre-tick `F`. -/
def fsumSpec (s : KState) (x y : ℤ) : ℚ :=
  ((nbhd s x y).map s.F).sum

/-- The pair of scratch buffers `Nsum` / `Fsum`. -/
structure Bufs where
  Nsum : ℤ → ℕ
  Fsum : ℤ → ℚ

/-- One iteration of the aggregation pass body: stores `n` and `fs` for
cell `(x, y)` into the scratch buffers (`Nsum[i] = n; Fsum[i] = fs`).
The `% 256` models the `Uint8Array` store of `n` (a no-op whenever the
liveness entries are the 0/1 values the data model prescribes). -/
def aggCell (s : KState) (b : Bufs) (x y : ℤ) : Bufs :=
  ⟨upd b.Nsum (idx s x y) (nsumSpec s x y % 256),
   upd b.Fsum (idx s x y) (fsumSpec s x y)⟩

/-- The inner `x` loop of the aggregation pass over columns `0 .. m-1` of
row `y`. -/
def aggRowN (s : KState) (y : ℤ) (m : ℕ) (b : Bufs) : Bufs :=
  (List.range m).foldl (fun b2 (xN : ℕ) => aggCell s b2 (xN : ℤ) y) b

/-- The outer `y` loop of the aggregation pass over rows `0 .. m-1`,
starting from the reused (stale) scratch buffers of the state. -/
def aggregateN (s : KState) (m : ℕ) : Bufs :=
  (List.range m).foldl (fun b2 (yN : ℕ) => aggRowN s (yN : ℤ) s.W.toNat b2)
    ⟨s.Nsum, s.Fsum⟩

/-- The full aggregation pass of `step()` (its first double loop). -/
def aggregate (s : KState) : Bufs := aggregateN s s.H.toNat

/-- Accumulator of the transition pass: the fertility buffer mutated in
place, the next-liveness buffer `A2`, and the running `aliveNext` count. -/
structure TPass where
  F : ℤ → ℚ
  A2 : ℤ → ℕ
  alive : ℕ

/-- One iteration of the transition loop body at cell index `i`: the
birth/survival decision using effective fertility, the `A2[i]` store, the
`aliveNext` increment, and the three in-place fertility bookkeeping
conditionals, exactly in source order. -/
def transCell (s : KState) (b : Bufs) (t : TPass) (i : ℤ) : TPass :=
  let n := b.Nsum i
  let favg := b.Fsum i * (1 / 8)
  let E := s.w0 * t.F i + s.w1 * favg
  let a := s.A i
  let birth := a == 0 && n == 3 && decide (s.tau ≤ E)
  let survive := a == 1 && (n == 2 || n == 3) && decide (s.sigma ≤ E)
  let aNext : ℕ := if birth || survive then 1 else 0
  let alive2 := t.alive + (if aNext ≠ 0 then 1 else 0)
  let F1 := if a == 1 && aNext == 0 then upd t.F i (t.F i + s.alpha) else t.F
  let F2 := if a == 0 && aNext == 1 then upd F1 i (max 0 (F1 i - s.beta)) else F1
  let F3 := if a == 1 && aNext == 1 then upd F2 i (max 0 (F2 i - s.kappa)) else F2
  ⟨F3, upd t.A2 i aNext, alive2⟩

/-- The transition loop over cell indices `0 .. m-1`, starting from the
pre-tick fertility buffer and the reused `A2` buffer. -/
def transN (s : KState) (b : Bufs) (m : ℕ) : TPass :=
  (List.range m).foldl (fun t (iN : ℕ) => transCell s b t (iN : ℤ)) ⟨s.F, s.A2, 0⟩

/-- The full transition pass of `step()` (its second loop). -/
def transPass (s : KState) (b : Bufs) : TPass := transN s b s.N.toNat

/-- One iteration of the diffusion/decay loop body at cell index `i`:
`F[i] = max(0, (F[i] + d * (favg - F[i])) * (1 - delta))` with `favg`
read from the stored neighbor-fertility sums. -/
def diffCell (s : KState) (b : Bufs) (F : ℤ → ℚ) (i : ℤ) : ℤ → ℚ :=
  let favg := b.Fsum i * (1 / 8)
  upd F i (max 0 ((F i + s.d * (favg - F i)) * (1 - s.delta)))

/-- The diffusion/decay loop over cell indices `0 .. m-1`. -/
def diffN (s : KState) (b : Bufs) (F0 : ℤ → ℚ) (m : ℕ) : ℤ → ℚ :=
  (List.range m).foldl (fun F2 (iN : ℕ) => diffCell s b F2 (iN : ℤ)) F0

/-- The full diffusion/decay pass of `step()` (its third loop). -/
def diffPass (s : KState) (b : Bufs) (F0 : ℤ → ℚ) : ℤ → ℚ :=
  diffN s b F0 s.N.toNat

/-- The `step()` function: aggregation pass, transition pass,
diffusion/decay pass, buffer swap (`A`/`A2`), generation increment;
returns the new state together with the `aliveNext` count. -/
def step (s : KState) : KState × ℕ :=
  let b := aggregate s
  let t := transPass s b
  let Fnew := diffPass s b t.F
  ({ s with A := t.A2, A2 := s.A, F := Fnew,
            Nsum := b.Nsum, Fsum := b.Fsum, gen := s.gen + 1 }, t.alive)

/-- Visualization cap `F_VIS_CAP = 1.5`. -/
def F_VIS_CAP : ℚ := 3 / 2

/-- Computable model of JS `Math.sqrt` on the visualization value: for a
nonnegative rational it returns the rational `Nat.sqrt (num * den) / den`
(an integer-precision square-root approximation); for a negative argument
(where `Math.sqrt` yields `NaN` and the subsequent `Uint8ClampedArray`
store yields `0`) it returns `0`. No claim proved in this file depends on
the numeric values this function produces, only on the renderer's shape. -/
def ratSqrt (q : ℚ) : ℚ :=
  if q < 0 then 0 else (Nat.sqrt (q.num.toNat * q.den) : ℚ) / (q.den : ℚ)

/-- JS `Math.round`: round half toward positive infinity. -/
def jsRound (q : ℚ) : ℤ := ⌊q + 1 / 2⌋

/-- The `Uint8ClampedArray` store: clamp an integer to `[0, 255]`. -/
def clampByte (z : ℤ) : ℕ := (max 0 (min 255 z)).toNat

/-- The four RGBA bytes `renderFrame` writes for cell `i`: the soil tint
from the clamped, square-root-compressed fertility, fully overridden by
the live color when `A[i] = 1`, with alpha `255`. Tint constants are
`DEAD_SOIL_TINT = [30, 26, 18]`, `SOIL_TINT_SCALE = [0.0, 0.75, 0.2]`,
`LIVE_COLOR = [230, 255, 230]`. -/
def pixel (s : KState) (i : ℤ) : List ℕ :=
  let t := min (s.F i / F_VIS_CAP) 1
  let c := ratSqrt t
  let r0 := 30 + jsRound (0 * 255 * c)
  let g0 := 26 + jsRound ((3 / 4) * 255 * c)
  let b0 := 18 + jsRound ((1 / 5) * 255 * c)
  let r := if s.A i = 1 then 230 else r0
  let g := if s.A i = 1 then 255 else g0
  let b := if s.A i = 1 then 230 else b0
  [clampByte r, clampByte g, clampByte b, clampByte 255]

/-- The byte output of `renderFrame`'s loop over cells `0 .. m-1`: four
bytes per cell, appended in increasing cell order. -/
def renderBytes (s : KState) : ℕ → List ℕ
  | 0 => []
  | m + 1 => renderBytes s m ++ pixel s (m : ℤ)

/-- The `renderFrame()` function: the RGBA buffer of length `4 * N` built
from the current `A` and `F`. -/
def renderFrame (s : KState) : List ℕ := renderBytes s s.N.toNat

/-- The frame message posted by `postFrame`: width, height, generation,
alive count, and the transferred pixel buffer. -/
structure Frame where
  width : ℤ
  height : ℤ
  generation : ℕ
  alive : ℕ
  buffer : List ℕ

/-- The `postFrame` helper: renders the current state and packages the
frame message. -/
def postFrame (s : KState) (aliveCount : ℕ) : Frame :=
  ⟨s.W, s.H, s.gen, aliveCount, renderFrame s⟩

/-- The `ensureArrays(width, height)` function: assigns `W`, `H`
(`N = W * H` being derived), allocates fresh zeroed buffers with fertility
filled to `f0`, resets the generation and sets the `initialized` flag.
There is no dimension validation in the source; the only failure is the
host `RangeError` thrown by a typed-array allocation when the requested
length `W * H` is negative, modeled as the error branch here. -/
def ensureArrays (width height : ℤ) (s : KState) : Except String KState :=
  if width * height < 0 then
    Except.error ("RangeError: invalid typed array length")
  else
    Except.ok { s with W := width, H := height,
                       A := fun _ => 0, F := fun _ => s.f0,
                       A2 := fun _ => 0,
                       Nsum := fun _ => 0, Fsum := fun _ => 0,
                       gen := 0, inited := true }

/-- A `setParams` message payload: any subset of the nine tunable
parameters (`undefined` fields modeled as `none`). -/
structure ParamsPatch where
  f0 : Option ℚ
  tau : Option ℚ
  sigma : Option ℚ
  alpha : Option ℚ
  beta : Option ℚ
  kappa : Option ℚ
  d : Option ℚ
  delta : Option ℚ
  w0 : Option ℚ

/-- The `setParams` handler body: each provided field replaces the stored
value, absent fields are retained, and a provided `w0` is clamped to
`[0, 1]` with `w1` recomputed as `1 - w0`. -/
def mergeParams (s : KState) (p : ParamsPatch) : KState :=
  { s with
    f0 := p.f0.getD s.f0,
    tau := p.tau.getD s.tau,
    sigma := p.sigma.getD s.sigma,
    alpha := p.alpha.getD s.alpha,
    beta := p.beta.getD s.beta,
    kappa := p.kappa.getD s.kappa,
    d := p.d.getD s.d,
    delta := p.delta.getD s.delta,
    w0 := match p.w0 with
          | none => s.w0
          | some v => max 0 (min 1 v),
    w1 := match p.w0 with
          | none => s.w1
          | some v => 1 - max 0 (min 1 v) }

/-- The incoming message union: `init`, `step`, `render`, `reset`,
`setCell`, `setParams` from the later worker revision, plus `clear` from
the earlier revision of the same file. -/
inductive Msg where
  | init (width height : ℤ)
  | step
  | render
  | reset
  | setCell (x y : ℤ) (v : ℕ)
  | clear
  | setParams (p : ParamsPatch)

/-- The alive count posted by the `render` handler:
`A.reduce((s, v) => s + v, 0)`. -/
def liveCount (s : KState) : ℕ :=
  ((List.range s.N.toNat).map (fun iN => s.A (iN : ℤ))).sum

/-- The `self.onmessage` dispatcher: every non-`init` handler except
`setParams` is guarded by the `initialized` flag (`if (!initialized)
break`); `setParams` is accepted anytime. The returned pair is the new
kernel state and the frame posted by the handler, if any. -/
def applyMsg (m : Msg) (s : KState) : Except String (KState × Option Frame) :=
  match m with
  | Msg.init w h =>
      (ensureArrays w h s).map (fun s2 => (s2, some (postFrame s2 0)))
  | Msg.step =>
      if s.inited then
        let r := step s
        Except.ok (r.1, some (postFrame r.1 r.2))
      else Except.ok (s, none)
  | Msg.render =>
      if s.inited then Except.ok (s, some (postFrame s (liveCount s)))
      else Except.ok (s, none)
  | Msg.reset =>
      if s.inited then
        let s2 := { s with A := fun _ => 0, F := fun _ => s.f0, gen := 0 }
        Except.ok (s2, some (postFrame s2 0))
      else Except.ok (s, none)
  | Msg.setCell x y v =>
      if s.inited then
        if 0 ≤ x ∧ 0 ≤ y ∧ x < s.W ∧ y < s.H then
          Except.ok ({ s with A := upd s.A (idx s x y) (v % 256) }, none)
        else Except.ok (s, none)
      else Except.ok (s, none)
  | Msg.clear =>
      if s.inited then
        let s2 := { s with A := fun _ => 0, F := fun _ => 0, gen := 0 }
        Except.ok (s2, some (postFrame s2 0))
      else Except.ok (s, none)
  | Msg.setParams p =>
      Except.ok (mergeParams s p, none)

/-- The module-level initial state of the worker (before any message):
empty buffers, `initialized = false`, and the fallback parameter defaults
`f0 = 0.7`, `tau = 0.5`, `sigma = 0.1`, `alpha = 1.0`, `beta = 0.4`,
`kappa = 0.03`, `d = 0.3`, `delta = 0.008`, `w0 = 0.6`, `w1 = 1 - w0`. -/
def initState : KState :=
  { inited := false, W := 0, H := 0,
    A := fun _ => 0, F := fun _ => 0, A2 := fun _ => 0,
    Nsum := fun _ => 0, Fsum := fun _ => 0, gen := 0,
    f0 := 7 / 10, tau := 1 / 2, sigma := 1 / 10, alpha := 1,
    beta := 2 / 5, kappa := 3 / 100, d := 3 / 10, delta := 1 / 125,
    w0 := 3 / 5, w1 := 1 - 3 / 5 }

/-- The resulting state of a successful message application (the input
state when the message errors); used to spell concrete runs. -/
def afterMsg (m : Msg) (s : KState) : KState :=
  match applyMsg m s with
  | Except.ok r => r.1
  | Except.error _ => s

/-- The frame posted by a successful message application, if any. -/
def afterFrame (m : Msg) (s : KState) : Option Frame :=
  match applyMsg m s with
  | Except.ok r => r.2
  | Except.error _ => none

/-- States reachable from the worker's initial module state through any
sequence of successfully processed messages. -/
inductive Reachable : KState → Prop where
  | start : Reachable initState
  | next (s : KState) (m : Msg) (s2 : KState) (fr : Option Frame)
      (hs : Reachable s) (h : applyMsg m s = Except.ok (s2, fr)) :
      Reachable s2

/-- Neighbor-alive count of the cell with flat index `i` (the coordinates
recovered from the row-major index). -/
def nsumAtI (s : KState) (i : ℤ) : ℕ := nsumSpec s (i % s.W) (i / s.W)

/-- Neighbor-fertility sum of the cell with flat index `i`. -/
def fsumAtI (s : KState) (i : ℤ) : ℚ := fsumSpec s (i % s.W) (i / s.W)

/-- The next-liveness value the transition loop computes for cell `i`
from the pre-tick state and the scratch buffers. -/
def aNextCell (s : KState) (b : Bufs) (i : ℤ) : ℕ :=
  let n := b.Nsum i
  let favg := b.Fsum i * (1 / 8)
  let E := s.w0 * s.F i + s.w1 * favg
  let a := s.A i
  let birth := a == 0 && n == 3 && decide (s.tau ≤ E)
  let survive := a == 1 && (n == 2 || n == 3) && decide (s.sigma ≤ E)
  if birth || survive then 1 else 0

/-- The fertility value cell `i` holds after the transition loop's
bookkeeping conditionals (keyed on pre-tick liveness and next state). -/
def bookCell (s : KState) (b : Bufs) (i : ℤ) : ℚ :=
  let a := s.A i
  let aN := aNextCell s b i
  if a == 1 && aN == 0 then s.F i + s.alpha
  else if a == 0 && aN == 1 then max 0 (s.F i - s.beta)
  else if a == 1 && aN == 1 then max 0 (s.F i - s.kappa)
  else s.F i

/-- The fertility of cell `i` after `step()`'s transition pass (that is,
after this tick's bookkeeping but before diffusion/decay). -/
def stepBookF (s : KState) (i : ℤ) : ℚ := (transPass s (aggregate s)).F i

/-- Effective fertility `E = w0 * F[i] + w1 * favg` of cell `i`, with
`favg` the neighbor-fertility sum divided by 8. -/
def Eeff (s : KState) (i : ℤ) : ℚ :=
  s.w0 * s.F i + s.w1 * (fsumAtI s i / 8)

/-- A concrete post-`init` state (a 1-by-1 grid) used to instantiate
universally quantified theorems at a specific input. -/
def wState : KState := afterMsg (Msg.init 1 1) initState

/-- A concrete parameter patch supplying only `w0` (with an out-of-range
value), used to instantiate the parameter-merge theorem. -/
def wPatch : ParamsPatch :=
  ⟨none, none, none, none, none, none, none, none, some 2⟩

/-- A parameter patch supplying only `f0`. -/
def f0Patch (c : ℚ) : ParamsPatch :=
  ⟨some c, none, none, none, none, none, none, none, none⟩

/-- A parameter patch supplying only `tau`. -/
def tauPatch : ParamsPatch :=
  ⟨none, some 1, none, none, none, none, none, none, none⟩

/-- A 2-by-2 Ready grid whose only live cell is at `(0, 0)`. -/
def s22 : KState :=
  { initState with inited := true, W := 2, H := 2,
                   A := fun i => if i = 0 then 1 else 0 }

/-- A 3-by-3 Ready grid whose only live cell is at `(0, 0)`. -/
def s33 : KState :=
  { initState with inited := true, W := 3, H := 3,
                   A := fun i => if i = 0 then 1 else 0 }

@[simp] theorem upd_self {α : Type} (f : ℤ → α) (j : ℤ) (v : α) :
    upd f j v j = v := by
  simp [upd]

@[simp] theorem upd_ne {α : Type} (f : ℤ → α) (j k : ℤ) (v : α) (h : k ≠ j) :
    upd f j v k = f k := by
  simp [upd, h]

theorem idx_inj (s : KState) {x y x' y' : ℤ}
    (hx0 : 0 ≤ x) (hxW : x < s.W) (hx0' : 0 ≤ x') (hxW' : x' < s.W) :
    idx s x y = idx s x' y' ↔ x = x' ∧ y = y' := by
  constructor
  · intro h
    have h' : y * s.W + x = y' * s.W + x' := h
    have hW : 0 < s.W := lt_of_le_of_lt hx0 hxW
    rcases lt_trichotomy y y' with hlt | heq | hgt
    · exfalso
      have h1 : s.W ≤ (y' - y) * s.W :=
        le_mul_of_one_le_left (le_of_lt hW) (by omega)
      nlinarith
    · subst heq
      exact ⟨by omega, rfl⟩
    · exfalso
      have h1 : s.W ≤ (y - y') * s.W :=
        le_mul_of_one_le_left (le_of_lt hW) (by omega)
      nlinarith
  · rintro ⟨rfl, rfl⟩
    rfl

theorem aggRowN_at (s : KState) (y : ℤ) (m : ℕ) (hm : (m : ℤ) ≤ s.W)
    (b : Bufs) (x' y' : ℤ) (hx0 : 0 ≤ x') (hxW : x' < s.W) :
    ((aggRowN s y m b).Nsum (idx s x' y') =
      if y' = y ∧ x' < (m : ℤ) then nsumSpec s x' y' % 256
      else b.Nsum (idx s x' y'))
    ∧ ((aggRowN s y m b).Fsum (idx s x' y') =
      if y' = y ∧ x' < (m : ℤ) then fsumSpec s x' y'
      else b.Fsum (idx s x' y')) := by
  induction m with
  | zero =>
      simp only [aggRowN, List.range_zero, List.foldl_nil, Nat.cast_zero]
      rw [if_neg (by omega), if_neg (by omega)]
      exact ⟨rfl, rfl⟩
  | succ m ih =>
      have hm' : (m : ℤ) ≤ s.W := by push_cast at hm ⊢; omega
      have hmW : (m : ℤ) < s.W := by push_cast at hm; omega
      have hstep : aggRowN s y (m + 1) b =
          aggCell s (aggRowN s y m b) (m : ℤ) y := by
        simp [aggRowN, List.range_succ]
      have hiff2 : idx s x' y' = idx s (m : ℤ) y ↔ x' = (m : ℤ) ∧ y' = y :=
        idx_inj s hx0 hxW (Int.natCast_nonneg m) hmW
      obtain ⟨ihN, ihF⟩ := ih hm'
      rw [hstep]
      constructor
      · show (upd (aggRowN s y m b).Nsum (idx s (m : ℤ) y) _) (idx s x' y') = _
        by_cases hhit : x' = (m : ℤ) ∧ y' = y
        · rw [show idx s x' y' = idx s (m : ℤ) y from hiff2.mpr hhit, upd_self]
          rw [if_pos ⟨hhit.2, by omega⟩, hhit.1, hhit.2]
        · rw [upd_ne _ _ _ _ (fun hc => hhit (hiff2.mp hc)), ihN]
          by_cases hcond : y' = y ∧ x' < (m : ℤ)
          · rw [if_pos hcond, if_pos ⟨hcond.1, by omega⟩]
          · rw [if_neg hcond, if_neg (by push_cast; omega)]
      · show (upd (aggRowN s y m b).Fsum (idx s (m : ℤ) y) _) (idx s x' y') = _
        by_cases hhit : x' = (m : ℤ) ∧ y' = y
        · rw [show idx s x' y' = idx s (m : ℤ) y from hiff2.mpr hhit, upd_self]
          rw [if_pos ⟨hhit.2, by omega⟩, hhit.1, hhit.2]
        · rw [upd_ne _ _ _ _ (fun hc => hhit (hiff2.mp hc)), ihF]
          by_cases hcond : y' = y ∧ x' < (m : ℤ)
          · rw [if_pos hcond, if_pos ⟨hcond.1, by omega⟩]
          · rw [if_neg hcond, if_neg (by push_cast; omega)]

theorem aggregateN_at (s : KState) (m : ℕ) (hm : (m : ℤ) ≤ s.H)
    (x y : ℤ) (hx0 : 0 ≤ x) (hxW : x < s.W) (hy0 : 0 ≤ y) (hyH : y < s.H) :
    ((aggregateN s m).Nsum (idx s x y) =
      if y < (m : ℤ) then nsumSpec s x y % 256 else s.Nsum (idx s x y))
    ∧ ((aggregateN s m).Fsum (idx s x y) =
      if y < (m : ℤ) then fsumSpec s x y else s.Fsum (idx s x y)) := by
  have hW : 0 < s.W := lt_of_le_of_lt hx0 hxW
  have hWcast : ((s.W.toNat : ℤ)) = s.W := Int.toNat_of_nonneg (le_of_lt hW)
  induction m with
  | zero =>
      simp only [aggregateN, List.range_zero, List.foldl_nil, Nat.cast_zero]
      rw [if_neg (by omega), if_neg (by omega)]
      exact ⟨rfl, rfl⟩
  | succ m ih =>
      have hm' : (m : ℤ) ≤ s.H := by push_cast at hm ⊢; omega
      have hstep : aggregateN s (m + 1) =
          aggRowN s (m : ℤ) s.W.toNat (aggregateN s m) := by
        simp [aggregateN, List.range_succ]
      obtain ⟨ihN, ihF⟩ := ih hm'
      obtain ⟨hrN, hrF⟩ := aggRowN_at s (m : ℤ) s.W.toNat (le_of_eq hWcast)
        (aggregateN s m) x y hx0 hxW
      rw [hstep]
      constructor
      · rw [hrN, hWcast]
        by_cases hym : y = (m : ℤ)
        · rw [if_pos ⟨hym, hxW⟩, if_pos (by omega)]
        · rw [if_neg (by tauto), ihN]
          by_cases hlt : y < (m : ℤ)
          · rw [if_pos hlt, if_pos (by omega)]
          · rw [if_neg hlt, if_neg (by push_cast; omega)]
      · rw [hrF, hWcast]
        by_cases hym : y = (m : ℤ)
        · rw [if_pos ⟨hym, hxW⟩, if_pos (by omega)]
        · rw [if_neg (by tauto), ihF]
          by_cases hlt : y < (m : ℤ)
          · rw [if_pos hlt, if_pos (by omega)]
          · rw [if_neg hlt, if_neg (by push_cast; omega)]

theorem aggregate_at (s : KState) (hW : 0 < s.W) (hH : 0 < s.H)
    (x y : ℤ) (hx0 : 0 ≤ x) (hxW : x < s.W) (hy0 : 0 ≤ y) (hyH : y < s.H) :
    (aggregate s).Nsum (idx s x y) = nsumSpec s x y % 256
    ∧ (aggregate s).Fsum (idx s x y) = fsumSpec s x y := by
  have hHcast : ((s.H.toNat : ℤ)) = s.H := Int.toNat_of_nonneg (le_of_lt hH)
  obtain ⟨hN, hF⟩ := aggregateN_at s s.H.toNat (le_of_eq hHcast) x y hx0 hxW hy0 hyH
  rw [aggregate] at *
  rw [hN, hF, if_pos (by omega), if_pos (by omega)]
  exact ⟨rfl, rfl⟩

theorem idx_decomp (s : KState) (hW : 0 < s.W) (i : ℤ) :
    idx s (i % s.W) (i / s.W) = i := by
  show i / s.W * s.W + i % s.W = i
  rw [mul_comm]
  exact Int.ediv_add_emod i s.W

theorem aggregate_atI (s : KState) (hW : 0 < s.W) (hH : 0 < s.H)
    (i : ℤ) (hi0 : 0 ≤ i) (hiN : i < s.N) :
    (aggregate s).Nsum i = nsumAtI s i % 256
    ∧ (aggregate s).Fsum i = fsumAtI s i := by
  have hx0 : 0 ≤ i % s.W := Int.emod_nonneg i (ne_of_gt hW)
  have hxW : i % s.W < s.W := Int.emod_lt_of_pos i hW
  have hy0 : 0 ≤ i / s.W := Int.ediv_nonneg hi0 (le_of_lt hW)
  have hyH : i / s.W < s.H := by
    rw [Int.ediv_lt_iff_lt_mul hW]
    calc i < s.N := hiN
    _ = s.H * s.W := mul_comm s.W s.H
  have h := aggregate_at s hW hH (i % s.W) (i / s.W) hx0 hxW hy0 hyH
  rw [idx_decomp s hW i] at h
  exact h

theorem transCell_at_ne (s : KState) (b : Bufs) (t : TPass) (i j : ℤ)
    (hji : j ≠ i) :
    (transCell s b t i).F j = t.F j ∧ (transCell s b t i).A2 j = t.A2 j := by
  simp only [transCell]
  constructor
  · split_ifs <;> simp [upd, hji]
  · simp [upd, hji]

theorem transCell_at_self (s : KState) (b : Bufs) (t : TPass) (i : ℤ)
    (hF : t.F i = s.F i) :
    (transCell s b t i).F i = bookCell s b i
    ∧ (transCell s b t i).A2 i = aNextCell s b i := by
  simp only [transCell, bookCell, aNextCell, hF]
  by_cases hc : ((s.A i == 0 && b.Nsum i == 3
      && decide (s.tau ≤ s.w0 * s.F i + s.w1 * (b.Fsum i * (1 / 8))))
      || (s.A i == 1 && (b.Nsum i == 2 || b.Nsum i == 3)
      && decide (s.sigma ≤ s.w0 * s.F i + s.w1 * (b.Fsum i * (1 / 8))))) = true
  · simp only [hc, if_true]
    by_cases h1 : s.A i = 1
    · simp [h1, upd, hF]
    · by_cases h0 : s.A i = 0
      · simp [h0, upd, hF]
      · simp [h0, h1, upd, hF]
  · simp only [Bool.not_eq_true] at hc
    simp only [hc, Bool.false_eq_true, if_false]
    by_cases h1 : s.A i = 1
    · simp [h1, upd, hF]
    · by_cases h0 : s.A i = 0
      · simp [h0, h1, upd, hF]
      · simp [h0, h1, upd, hF]

theorem transN_at (s : KState) (b : Bufs) (m : ℕ) (j : ℤ) :
    ((transN s b m).F j =
      if 0 ≤ j ∧ j < (m : ℤ) then bookCell s b j else s.F j)
    ∧ ((transN s b m).A2 j =
      if 0 ≤ j ∧ j < (m : ℤ) then aNextCell s b j else s.A2 j) := by
  induction m with
  | zero =>
      simp only [transN, List.range_zero, List.foldl_nil, Nat.cast_zero]
      rw [if_neg (by omega), if_neg (by omega)]
      exact ⟨rfl, rfl⟩
  | succ m ih =>
      have hstep : transN s b (m + 1) =
          transCell s b (transN s b m) (m : ℤ) := by
        simp [transN, List.range_succ]
      obtain ⟨ihF, ihA⟩ := ih
      rw [hstep]
      by_cases hj : j = (m : ℤ)
      · have hFm : (transN s b m).F ((m : ℕ) : ℤ) = s.F ((m : ℕ) : ℤ) := by
          rw [← hj, ihF, if_neg (by omega)]
        obtain ⟨hsF, hsA⟩ := transCell_at_self s b (transN s b m) (m : ℤ) hFm
        rw [hj, hsF, hsA, if_pos (by omega), if_pos (by omega)]
        exact ⟨rfl, rfl⟩
      · obtain ⟨hnF, hnA⟩ := transCell_at_ne s b (transN s b m) (m : ℤ) j hj
        constructor
        · rw [hnF, ihF]
          by_cases hcond : 0 ≤ j ∧ j < (m : ℤ)
          · rw [if_pos hcond, if_pos (by omega)]
          · rw [if_neg hcond, if_neg (by omega)]
        · rw [hnA, ihA]
          by_cases hcond : 0 ≤ j ∧ j < (m : ℤ)
          · rw [if_pos hcond, if_pos (by omega)]
          · rw [if_neg hcond, if_neg (by omega)]

theorem diffN_at (s : KState) (b : Bufs) (F0 : ℤ → ℚ) (m : ℕ) (j : ℤ) :
    diffN s b F0 m j =
      if 0 ≤ j ∧ j < (m : ℤ) then
        max 0 ((F0 j + s.d * (b.Fsum j * (1 / 8) - F0 j)) * (1 - s.delta))
      else F0 j := by
  induction m with
  | zero =>
      simp only [diffN, List.range_zero, List.foldl_nil, Nat.cast_zero]
      rw [if_neg (by omega)]
  | succ m ih =>
      have hstep : diffN s b F0 (m + 1) =
          diffCell s b (diffN s b F0 m) (m : ℤ) := by
        simp [diffN, List.range_succ]
      rw [hstep]
      by_cases hj : j = (m : ℤ)
      · have hFm : diffN s b F0 m ((m : ℕ) : ℤ) = F0 ((m : ℕ) : ℤ) := by
          have := ih
          rw [hj] at this
          rw [this, if_neg (by omega)]
        rw [hj]
        simp only [diffCell, upd_self, hFm]
        rw [if_pos (by omega)]
      · simp only [diffCell, upd_ne _ _ _ _ hj, ih]
        by_cases hcond : 0 ≤ j ∧ j < (m : ℤ)
        · rw [if_pos hcond, if_pos (by omega)]
        · rw [if_neg hcond, if_neg (by omega)]

theorem step_A_at (s : KState) (hW : 0 < s.W) (hH : 0 < s.H)
    (i : ℤ) (hi0 : 0 ≤ i) (hiN : i < s.N) :
    (step s).1.A i = aNextCell s (aggregate s) i := by
  have hN0 : 0 ≤ s.N := le_trans hi0 (le_of_lt hiN)
  have hcast : ((s.N.toNat : ℤ)) = s.N := Int.toNat_of_nonneg hN0
  show (transPass s (aggregate s)).A2 i = _
  rw [transPass, (transN_at s (aggregate s) s.N.toNat i).2,
    if_pos ⟨hi0, by omega⟩]

theorem stepBookF_at (s : KState) (hW : 0 < s.W) (hH : 0 < s.H)
    (i : ℤ) (hi0 : 0 ≤ i) (hiN : i < s.N) :
    stepBookF s i = bookCell s (aggregate s) i := by
  have hN0 : 0 ≤ s.N := le_trans hi0 (le_of_lt hiN)
  have hcast : ((s.N.toNat : ℤ)) = s.N := Int.toNat_of_nonneg hN0
  rw [stepBookF, transPass, (transN_at s (aggregate s) s.N.toNat i).1,
    if_pos ⟨hi0, by omega⟩]

theorem step_F_at (s : KState) (hW : 0 < s.W) (hH : 0 < s.H)
    (i : ℤ) (hi0 : 0 ≤ i) (hiN : i < s.N) :
    (step s).1.F i =
      max 0 ((stepBookF s i
        + s.d * (fsumAtI s i / 8 - stepBookF s i)) * (1 - s.delta)) := by
  have hN0 : 0 ≤ s.N := le_trans hi0 (le_of_lt hiN)
  have hcast : ((s.N.toNat : ℤ)) = s.N := Int.toNat_of_nonneg hN0
  have hFs : (aggregate s).Fsum i = fsumAtI s i :=
    (aggregate_atI s hW hH i hi0 hiN).2
  show diffPass s (aggregate s) (transPass s (aggregate s)).F i = _
  rw [diffPass, diffN_at s (aggregate s) _ s.N.toNat i,
    if_pos ⟨hi0, by omega⟩, hFs]
  rw [show fsumAtI s i * (1 / 8) = fsumAtI s i / 8 by ring]
  rfl

/-- Eight neighbors means the neighbor-alive count is at most 8 whenever
the liveness field is a 0/1 bitmap, so the `Uint8Array` store is exact. -/
theorem nsum_mod (s : KState) (h01 : ∀ j, s.A j ≤ 1) (x y : ℤ) :
    nsumSpec s x y % 256 = nsumSpec s x y := by
  have hle : ∀ z ∈ (nbhd s x y).map s.A, z ≤ 1 := by
    intro z hz
    simp only [List.mem_map] at hz
    obtain ⟨p, _, rfl⟩ := hz
    exact h01 p
  have hlen : ((nbhd s x y).map s.A).length = 8 := by
    simp [nbhd]
  have hsum : ((nbhd s x y).map s.A).sum ≤ 8 := by
    have h := List.sum_le_card_nsmul ((nbhd s x y).map s.A) 1 hle
    rw [hlen] at h
    simpa using h
  have hlt : nsumSpec s x y < 256 := by
    rw [nsumSpec]
    omega
  exact Nat.mod_eq_of_lt hlt

/-- The birth/survival decision at cell `i`, in propositional form over
the per-index neighbor aggregates. -/
theorem step_A_iff (s : KState) (hW : 0 < s.W) (hH : 0 < s.H)
    (h01 : ∀ j, s.A j ≤ 1) (i : ℤ) (hi0 : 0 ≤ i) (hiN : i < s.N) :
    ((step s).1.A i = 1 ↔
      ((s.A i = 0 ∧ nsumAtI s i = 3 ∧ s.tau ≤ Eeff s i) ∨
       (s.A i = 1 ∧ (nsumAtI s i = 2 ∨ nsumAtI s i = 3) ∧ s.sigma ≤ Eeff s i)))
    ∧ ((step s).1.A i = 0 ∨ (step s).1.A i = 1) := by
  rw [step_A_at s hW hH i hi0 hiN]
  have hNs : (aggregate s).Nsum i = nsumAtI s i := by
    rw [(aggregate_atI s hW hH i hi0 hiN).1, nsumAtI, nsum_mod s h01]
  have hFs : (aggregate s).Fsum i = fsumAtI s i :=
    (aggregate_atI s hW hH i hi0 hiN).2
  have hE : s.w0 * s.F i + s.w1 * ((aggregate s).Fsum i * (1 / 8)) = Eeff s i := by
    rw [hFs, Eeff]
    ring
  constructor
  · simp only [aNextCell]
    split_ifs with hcc
    · simp only [Bool.or_eq_true, Bool.and_eq_true, beq_iff_eq,
        decide_eq_true_eq, and_assoc, hNs, hE] at hcc
      exact iff_of_true rfl hcc
    · simp only [Bool.or_eq_true, Bool.and_eq_true, beq_iff_eq,
        decide_eq_true_eq, and_assoc, hNs, hE] at hcc
      exact iff_of_false (by decide) hcc
  · simp only [aNextCell]
    split_ifs <;> simp

theorem bookCell_cases (s : KState) (b : Bufs) (i : ℤ) :
    (s.A i = 1 → aNextCell s b i = 0 → bookCell s b i = s.F i + s.alpha)
    ∧ (s.A i = 0 → aNextCell s b i = 1 → bookCell s b i = max 0 (s.F i - s.beta))
    ∧ (s.A i = 1 → aNextCell s b i = 1 → bookCell s b i = max 0 (s.F i - s.kappa))
    ∧ (s.A i = 0 → aNextCell s b i = 0 → bookCell s b i = s.F i) := by
  refine ⟨?_, ?_, ?_, ?_⟩ <;> intro ha hn <;> simp [bookCell, ha, hn]

/-- Claim C1: on every `step()` tick and every cell `i`, writing `a` for
the pre-tick liveness, `n` for the toroidal 8-neighbor live count, and
`E = w0 * F[i] + w1 * favg` with `favg` the pre-tick neighbor-fertility
sum divided by 8: the next liveness is `1` exactly when
`(a = 0 ∧ n = 3 ∧ E ≥ tau) ∨ (a = 1 ∧ n ∈ {2, 3} ∧ E ≥ sigma)` and
otherwise `0`; and the same-pass fertility bookkeeping keyed on
`(a, next)` is: alive-to-dead adds `alpha` (uncapped), dead-to-alive
yields `max 0 (F[i] - beta)`, alive-to-alive yields
`max 0 (F[i] - kappa)`, and dead-to-dead leaves `F[i]` unchanged by the
bookkeeping step. -/
theorem C1_step_rules (s : KState) (hW : 0 < s.W) (hH : 0 < s.H)
    (h01 : ∀ j, s.A j ≤ 1) (i : ℤ) (hi0 : 0 ≤ i) (hiN : i < s.N) :
    ((step s).1.A i = 1 ↔
      ((s.A i = 0 ∧ nsumAtI s i = 3 ∧ s.tau ≤ Eeff s i) ∨
       (s.A i = 1 ∧ (nsumAtI s i = 2 ∨ nsumAtI s i = 3) ∧ s.sigma ≤ Eeff s i)))
    ∧ ((step s).1.A i = 0 ∨ (step s).1.A i = 1)
    ∧ (s.A i = 1 → (step s).1.A i = 0 → stepBookF s i = s.F i + s.alpha)
    ∧ (s.A i = 0 → (step s).1.A i = 1 →
        stepBookF s i = max 0 (s.F i - s.beta))
    ∧ (s.A i = 1 → (step s).1.A i = 1 →
        stepBookF s i = max 0 (s.F i - s.kappa))
    ∧ (s.A i = 0 → (step s).1.A i = 0 → stepBookF s i = s.F i) := by
  obtain ⟨hiff, hzo⟩ := step_A_iff s hW hH h01 i hi0 hiN
  have hA := step_A_at s hW hH i hi0 hiN
  have hB := stepBookF_at s hW hH i hi0 hiN
  obtain ⟨hb1, hb2, hb3, hb4⟩ := bookCell_cases s (aggregate s) i
  refine ⟨hiff, hzo, ?_, ?_, ?_, ?_⟩ <;> intro ha hn <;> rw [hA] at hn <;> rw [hB]
  · exact hb1 ha hn
  · exact hb2 ha hn
  · exact hb3 ha hn
  · exact hb4 ha hn

theorem C1_step_rules_witness :
    ((step wState).1.A 0 = 1 ↔
      ((wState.A 0 = 0 ∧ nsumAtI wState 0 = 3 ∧ wState.tau ≤ Eeff wState 0) ∨
       (wState.A 0 = 1 ∧ (nsumAtI wState 0 = 2 ∨ nsumAtI wState 0 = 3)
         ∧ wState.sigma ≤ Eeff wState 0))) :=
  (C1_step_rules wState (by decide) (by decide)
    (fun j => Nat.zero_le 1) 0 (by decide) (by decide)).1

/-- Claim C2: after the tick's transitions and bookkeeping are complete,
`F[i]` is replaced by `max 0 ((F[i] + d * (favg - F[i])) * (1 - delta))`
where `F[i]` is the post-bookkeeping value and `favg` is one eighth of
the neighbor-fertility sum computed by this tick's aggregation pass over
the pre-tick fertility snapshot — the same stored sums the transition
engine used, not recomputed after bookkeeping. -/
theorem C2_diffusion (s : KState) (hW : 0 < s.W) (hH : 0 < s.H)
    (i : ℤ) (hi0 : 0 ≤ i) (hiN : i < s.N) :
    (step s).1.F i =
      max 0 ((stepBookF s i
        + s.d * (fsumAtI s i / 8 - stepBookF s i)) * (1 - s.delta))
    ∧ (aggregate s).Fsum i = fsumAtI s i := by
  exact ⟨step_F_at s hW hH i hi0 hiN, (aggregate_atI s hW hH i hi0 hiN).2⟩

theorem C2_diffusion_witness :
    (step wState).1.F 0 =
      max 0 ((stepBookF wState 0
        + wState.d * (fsumAtI wState 0 / 8 - stepBookF wState 0))
        * (1 - wState.delta)) :=
  (C2_diffusion wState (by decide) (by decide) 0 (by decide) (by decide)).1

/-- Claim C7: in the Ready state, `clear()` zeroes liveness and fertility
and resets the generation (posting alive count 0), while `reset()` zeroes
liveness, re-seeds fertility to the current `f0`, and resets the
generation (posting alive count 0). -/
theorem C7_clear_reset (s : KState) (hs : s.inited = true) :
    (∀ s2 fr, applyMsg Msg.clear s = Except.ok (s2, some fr) →
      (∀ i, s2.A i = 0) ∧ (∀ i, s2.F i = 0) ∧ s2.gen = 0 ∧ fr.alive = 0)
    ∧ (∀ s2 fr, applyMsg Msg.reset s = Except.ok (s2, some fr) →
      (∀ i, s2.A i = 0) ∧ (∀ i, s2.F i = s.f0) ∧ s2.gen = 0 ∧ fr.alive = 0) := by
  constructor <;> intro s2 fr h <;> rw [applyMsg] at h <;> rw [hs] at h <;>
    simp only [if_true] at h
  · obtain ⟨h1, h2⟩ := Prod.mk.injEq .. ▸ (Except.ok.injEq .. ▸ h)
    obtain rfl := Option.some.injEq .. ▸ h2
    subst h1
    exact ⟨fun i => rfl, fun i => rfl, rfl, rfl⟩
  · obtain ⟨h1, h2⟩ := Prod.mk.injEq .. ▸ (Except.ok.injEq .. ▸ h)
    obtain rfl := Option.some.injEq .. ▸ h2
    subst h1
    exact ⟨fun i => rfl, fun i => rfl, rfl, rfl⟩

theorem C7_clear_reset_witness :
    (afterMsg Msg.clear wState).F 0 = 0
    ∧ (afterMsg Msg.clear wState).gen = 0
    ∧ (afterMsg Msg.reset wState).F 0 = wState.f0 := by
  have hc := (C7_clear_reset wState rfl).1 (afterMsg Msg.clear wState)
    (postFrame (afterMsg Msg.clear wState) 0) rfl
  have hr := (C7_clear_reset wState rfl).2 (afterMsg Msg.reset wState)
    (postFrame (afterMsg Msg.reset wState) 0) rfl
  exact ⟨hc.2.1 0, hc.2.2.1, hr.2.1 0⟩

/-- Claim C8: `set_parameters` merges any subset of the provided fields,
absent fields retain their prior values, a provided `w0` is clamped to
`[0, 1]` with `w1` set to `1 -` the clamped value, the grid itself is
untouched, and the merged values (including the rederived `w1`) are the
ones the effective-fertility computation of the very next `step()`
uses. -/
theorem C8_set_params (s : KState) (p : ParamsPatch) :
    (applyMsg (Msg.setParams p) s = Except.ok (mergeParams s p, none))
    ∧ ((mergeParams s p).f0 = p.f0.getD s.f0
      ∧ (mergeParams s p).tau = p.tau.getD s.tau
      ∧ (mergeParams s p).sigma = p.sigma.getD s.sigma
      ∧ (mergeParams s p).alpha = p.alpha.getD s.alpha
      ∧ (mergeParams s p).beta = p.beta.getD s.beta
      ∧ (mergeParams s p).kappa = p.kappa.getD s.kappa
      ∧ (mergeParams s p).d = p.d.getD s.d
      ∧ (mergeParams s p).delta = p.delta.getD s.delta
      ∧ (mergeParams s p).w0 =
          (match p.w0 with | none => s.w0 | some v => max 0 (min 1 v))
      ∧ (mergeParams s p).w1 =
          (match p.w0 with | none => s.w1 | some v => 1 - max 0 (min 1 v)))
    ∧ ((mergeParams s p).A = s.A ∧ (mergeParams s p).F = s.F
      ∧ (mergeParams s p).W = s.W ∧ (mergeParams s p).H = s.H
      ∧ (mergeParams s p).gen = s.gen
      ∧ (mergeParams s p).inited = s.inited)
    ∧ (0 < s.W → 0 < s.H → (∀ j, s.A j ≤ 1) → ∀ i, 0 ≤ i → i < s.N →
        ((step (mergeParams s p)).1.A i = 1 ↔
          ((s.A i = 0 ∧ nsumAtI s i = 3
              ∧ (mergeParams s p).tau ≤ Eeff (mergeParams s p) i) ∨
           (s.A i = 1 ∧ (nsumAtI s i = 2 ∨ nsumAtI s i = 3)
              ∧ (mergeParams s p).sigma ≤ Eeff (mergeParams s p) i)))) := by
  refine ⟨rfl, ⟨rfl, rfl, rfl, rfl, rfl, rfl, rfl, rfl, rfl, rfl⟩,
    ⟨rfl, rfl, rfl, rfl, rfl, rfl⟩, ?_⟩
  intro hW hH h01 i hi0 hiN
  exact (step_A_iff (mergeParams s p) hW hH h01 i hi0 hiN).1

theorem C8_set_params_witness :
    (step (mergeParams wState wPatch)).1.A 0 = 1 ↔
      ((wState.A 0 = 0 ∧ nsumAtI wState 0 = 3
          ∧ (mergeParams wState wPatch).tau ≤ Eeff (mergeParams wState wPatch) 0) ∨
       (wState.A 0 = 1 ∧ (nsumAtI wState 0 = 2 ∨ nsumAtI wState 0 = 3)
          ∧ (mergeParams wState wPatch).sigma ≤ Eeff (mergeParams wState wPatch) 0)) :=
  (C8_set_params wState wPatch).2.2.2 (by decide) (by decide)
    (fun j => Nat.zero_le 1) 0 (by decide) (by decide)

theorem pixel_length (s : KState) (i : ℤ) : (pixel s i).length = 4 := rfl

theorem renderBytes_length (s : KState) (m : ℕ) :
    (renderBytes s m).length = 4 * m := by
  induction m with
  | zero => rfl
  | succ m ih =>
      show (renderBytes s m ++ pixel s (m : ℤ)).length = 4 * (m + 1)
      rw [List.length_append, ih, pixel_length]
      omega

theorem renderBytes_alpha (s : KState) (m : ℕ) (j : ℕ) (hj : j < m) :
    (renderBytes s m).get? (4 * j + 3) = some 255 := by
  induction m with
  | zero => omega
  | succ m ih =>
      show (renderBytes s m ++ pixel s (m : ℤ)).get? (4 * j + 3) = some 255
      by_cases hjm : j < m
      · rw [List.get?_append (by rw [renderBytes_length]; omega)]
        exact ih hjm
      · have hje : j = m := by omega
        subst hje
        rw [List.get?_append_right (by rw [renderBytes_length]; omega)]
        rw [renderBytes_length]
        have hix : 4 * j + 3 - 4 * j = 3 := by omega
        rw [hix]
        rfl

/-- Claim C9: `render` is a pure function of the current state — the
handler leaves the state unchanged and posts `renderFrame` of it, two
consecutive renders with no intervening change produce byte-identical
buffers, the buffer has length `4 * N`, and every fourth byte (each
pixel's alpha channel) is `255`. -/
theorem C9_render (s : KState) (hs : s.inited = true) :
    (applyMsg Msg.render s = Except.ok (s, some (postFrame s (liveCount s))))
    ∧ ((renderFrame s).length = 4 * s.N.toNat)
    ∧ (∀ j, j < s.N.toNat → (renderFrame s).get? (4 * j + 3) = some 255)
    ∧ (∀ s1 f1 s2 f2, applyMsg Msg.render s = Except.ok (s1, some f1) →
        applyMsg Msg.render s1 = Except.ok (s2, some f2) →
        s1 = s ∧ s2 = s ∧ f1.buffer = f2.buffer) := by
  have heq : applyMsg Msg.render s
      = Except.ok (s, some (postFrame s (liveCount s))) := by
    rw [applyMsg, hs]
    simp only [if_true]
  refine ⟨heq, renderBytes_length s s.N.toNat,
    fun j hj => renderBytes_alpha s s.N.toNat j hj, ?_⟩
  intro s1 f1 s2 f2 h1 h2
  rw [heq] at h1
  obtain ⟨hs1, hf1⟩ := Prod.mk.injEq .. ▸ (Except.ok.injEq .. ▸ h1)
  obtain rfl := Option.some.injEq .. ▸ hf1
  subst hs1
  rw [heq] at h2
  obtain ⟨hs2, hf2⟩ := Prod.mk.injEq .. ▸ (Except.ok.injEq .. ▸ h2)
  obtain rfl := Option.some.injEq .. ▸ hf2
  subst hs2
  exact ⟨rfl, rfl, rfl⟩

theorem C9_render_witness :
    (renderFrame wState).length = 4 * wState.N.toNat
    ∧ (renderFrame wState).get? 3 = some 255 := by
  have h := C9_render wState rfl
  exact ⟨h.2.1, h.2.2.1 0 (by decide)⟩

/-- Claim C10: `set_parameters` performs no range validation on `f0`:
any supplied value `c` (negative values included) is stored exactly, and
a subsequent `reset()` sets every cell's fertility to `c` — so a negative
supplied `f0` makes every fertility value negative at an observable
time. -/
theorem C10_f0_unvalidated (s : KState) (c : ℚ) :
    (applyMsg (Msg.setParams (f0Patch c)) s
      = Except.ok (mergeParams s (f0Patch c), none))
    ∧ ((mergeParams s (f0Patch c)).f0 = c)
    ∧ (s.inited = true → ∀ s2 fr,
        applyMsg Msg.reset (mergeParams s (f0Patch c)) = Except.ok (s2, fr) →
        (∀ i, s2.F i = c) ∧ (c < 0 → ∀ i, s2.F i < 0)) := by
  refine ⟨rfl, rfl, ?_⟩
  intro hs s2 fr h
  rw [applyMsg] at h
  rw [show (mergeParams s (f0Patch c)).inited = true from hs] at h
  simp only [if_true] at h
  obtain ⟨h1, h2⟩ := Prod.mk.injEq .. ▸ (Except.ok.injEq .. ▸ h)
  subst h1
  exact ⟨fun i => rfl, fun hc i => hc⟩

theorem C10_f0_unvalidated_witness :
    (mergeParams wState (f0Patch (-1))).f0 = -1
    ∧ (afterMsg Msg.reset (mergeParams wState (f0Patch (-1)))).F 0 = -1
    ∧ ((afterMsg Msg.reset (mergeParams wState (f0Patch (-1)))).F 0 < 0) := by
  have h := C10_f0_unvalidated wState (-1)
  have h2 := h.2.2 rfl (afterMsg Msg.reset (mergeParams wState (f0Patch (-1))))
    (afterFrame Msg.reset (mergeParams wState (f0Patch (-1)))) rfl
  exact ⟨h.2.1, h2.1 0, h2.2 (by norm_num) 0⟩

/-- Counterexample to claim C4 as stated: from `init(1,1)`, installing
`f0 = -1` through `set-parameters` (which validates nothing but `w0`) and
then issuing `reset` reaches, through successfully processed commands, a
state directly after a reset whose fertility is negative. -/
theorem C4_counterexample :
    Reachable (afterMsg Msg.reset (afterMsg (Msg.setParams (f0Patch (-1))) wState))
    ∧ applyMsg Msg.reset (afterMsg (Msg.setParams (f0Patch (-1))) wState)
        = Except.ok
            (afterMsg Msg.reset (afterMsg (Msg.setParams (f0Patch (-1))) wState),
             afterFrame Msg.reset (afterMsg (Msg.setParams (f0Patch (-1))) wState))
    ∧ (afterMsg Msg.reset (afterMsg (Msg.setParams (f0Patch (-1))) wState)).F 0 < 0 := by
  have r1 : Reachable wState :=
    Reachable.next initState (Msg.init 1 1) wState
      (afterFrame (Msg.init 1 1) initState) Reachable.start rfl
  have r2 : Reachable (afterMsg (Msg.setParams (f0Patch (-1))) wState) :=
    Reachable.next wState (Msg.setParams (f0Patch (-1))) _
      (afterFrame (Msg.setParams (f0Patch (-1))) wState) r1 rfl
  have r3 : Reachable
      (afterMsg Msg.reset (afterMsg (Msg.setParams (f0Patch (-1))) wState)) :=
    Reachable.next _ Msg.reset _
      (afterFrame Msg.reset (afterMsg (Msg.setParams (f0Patch (-1))) wState)) r2 rfl
  refine ⟨r3, rfl, ?_⟩
  rw [show (afterMsg Msg.reset
    (afterMsg (Msg.setParams (f0Patch (-1))) wState)).F 0 = -1 from rfl]
  norm_num

/-- Claim C4, amended: in the Ready state, `F[i] ≥ 0` holds for every
cell after every completed tick (the diffusion/decay pass clamps at zero)
and after every clear (which zeroes fertility); after a reset it holds
provided the current `f0` is nonnegative — a negative `f0` supplied
through `set-parameters` yields negative fertility after the reset. -/
theorem C4_amended (s : KState) (hs : s.inited = true) :
    (∀ s2 fr, applyMsg Msg.step s = Except.ok (s2, fr) →
      ∀ i, 0 ≤ i → i < s.N → 0 ≤ s2.F i)
    ∧ (∀ s2 fr, applyMsg Msg.clear s = Except.ok (s2, fr) → ∀ i, 0 ≤ s2.F i)
    ∧ (0 ≤ s.f0 → ∀ s2 fr, applyMsg Msg.reset s = Except.ok (s2, fr) →
        ∀ i, 0 ≤ s2.F i) := by
  refine ⟨?_, ?_, ?_⟩
  · intro s2 fr h i hi0 hiN
    rw [applyMsg, hs] at h
    simp only [if_true] at h
    obtain ⟨h1, h2⟩ := Prod.mk.injEq .. ▸ (Except.ok.injEq .. ▸ h)
    subst h1
    have hN0 : 0 ≤ s.N := le_trans hi0 (le_of_lt hiN)
    have hcast : ((s.N.toNat : ℤ)) = s.N := Int.toNat_of_nonneg hN0
    show 0 ≤ diffPass s (aggregate s) (transPass s (aggregate s)).F i
    rw [diffPass, diffN_at, if_pos ⟨hi0, by omega⟩]
    exact le_max_left 0 _
  · intro s2 fr h i
    rw [applyMsg, hs] at h
    simp only [if_true] at h
    obtain ⟨h1, h2⟩ := Prod.mk.injEq .. ▸ (Except.ok.injEq .. ▸ h)
    subst h1
    exact le_refl 0
  · intro hf0 s2 fr h i
    rw [applyMsg, hs] at h
    simp only [if_true] at h
    obtain ⟨h1, h2⟩ := Prod.mk.injEq .. ▸ (Except.ok.injEq .. ▸ h)
    subst h1
    exact hf0

theorem C4_amended_witness :
    (0 : ℚ) ≤ (afterMsg Msg.step wState).F 0 :=
  (C4_amended wState rfl).1 (afterMsg Msg.step wState)
    (afterFrame Msg.step wState) rfl 0 (by decide) (by decide)

/-- Counterexample to claim C5 as stated: `init(0, 5)` has a non-positive
width yet succeeds with no error — the handler performs no dimension
validation, allocates the (empty) buffers and enters the Ready state. -/
theorem C5_counterexample :
    applyMsg (Msg.init 0 5) initState
      = Except.ok (afterMsg (Msg.init 0 5) initState,
                   afterFrame (Msg.init 0 5) initState)
    ∧ (afterMsg (Msg.init 0 5) initState).inited = true
    ∧ (afterMsg (Msg.init 0 5) initState).W = 0 :=
  ⟨rfl, rfl, rfl⟩

/-- Claim C5, amended: `init` performs no dimension validation. Whenever
the requested allocation length `width * height` is nonnegative —
including zero and other non-positive dimension combinations — it
succeeds silently, installing the dimensions, zero liveness, fertility
`f0`, and generation 0; only a negative `width * height` fails, as the
host's typed-array allocation error rather than an explicit kernel
validation error. -/
theorem C5_amended (s : KState) (w h : ℤ) (hwh : 0 ≤ w * h) :
    (ensureArrays w h s = Except.ok { s with W := w, H := h,
                                             A := fun _ => 0,
                                             F := fun _ => s.f0,
                                             A2 := fun _ => 0,
                                             Nsum := fun _ => 0,
                                             Fsum := fun _ => 0,
                                             gen := 0, inited := true })
    ∧ (∀ s2 fr, applyMsg (Msg.init w h) s = Except.ok (s2, fr) →
        s2.inited = true ∧ s2.W = w ∧ s2.H = h ∧ (∀ i, s2.A i = 0)
        ∧ (∀ i, s2.F i = s.f0) ∧ s2.gen = 0)
    ∧ (∀ w2 h2 : ℤ, w2 * h2 < 0 →
        applyMsg (Msg.init w2 h2) s
          = Except.error ("RangeError: invalid typed array length")) := by
  have he : ensureArrays w h s = Except.ok { s with W := w, H := h,
                                                    A := fun _ => 0,
                                                    F := fun _ => s.f0,
                                                    A2 := fun _ => 0,
                                                    Nsum := fun _ => 0,
                                                    Fsum := fun _ => 0,
                                                    gen := 0,
                                                    inited := true } := by
    rw [ensureArrays, if_neg (by omega)]
  refine ⟨he, ?_, ?_⟩
  · intro s2 fr hcmd
    rw [applyMsg, he] at hcmd
    simp only [Except.map] at hcmd
    obtain ⟨h1, h2⟩ := Prod.mk.injEq .. ▸ (Except.ok.injEq .. ▸ hcmd)
    subst h1
    exact ⟨rfl, rfl, rfl, fun i => rfl, fun i => rfl, rfl⟩
  · intro w2 h2 hneg
    rw [applyMsg, ensureArrays, if_pos hneg]
    rfl

theorem C5_amended_witness :
    (afterMsg (Msg.init 2 3) initState).W = 2
    ∧ (afterMsg (Msg.init 2 3) initState).F 0 = initState.f0 := by
  have h := (C5_amended initState 2 3 (by decide)).2.1
    (afterMsg (Msg.init 2 3) initState)
    (afterFrame (Msg.init 2 3) initState) rfl
  exact ⟨h.2.1, h.2.2.2.2.1 0⟩

/-- Counterexample to claim C6 as stated: while Uninitialized (here the
module's initial state), a `set-parameters` command is not a no-op — the
handler has no `initialized` guard and changes the stored `tau`. -/
theorem C6_counterexample :
    initState.inited = false
    ∧ applyMsg (Msg.setParams tauPatch) initState
        = Except.ok (mergeParams initState tauPatch, none)
    ∧ (mergeParams initState tauPatch).tau = 1
    ∧ initState.tau ≠ 1 :=
  ⟨rfl, rfl, rfl, by norm_num [initState]⟩

/-- Claim C6, amended: while Uninitialized, every command other than
`init` and `set-parameters` — `step`, `render`, `reset`, `set-cell`,
`clear` — is a no-op that changes no kernel state and produces no frame;
`set-parameters` is accepted anytime, produces no frame, and updates the
parameter values even while Uninitialized. -/
theorem C6_amended (s : KState) (hs : s.inited = false) :
    applyMsg Msg.step s = Except.ok (s, none)
    ∧ applyMsg Msg.render s = Except.ok (s, none)
    ∧ applyMsg Msg.reset s = Except.ok (s, none)
    ∧ applyMsg Msg.clear s = Except.ok (s, none)
    ∧ (∀ x y v, applyMsg (Msg.setCell x y v) s = Except.ok (s, none))
    ∧ (∀ p, applyMsg (Msg.setParams p) s
        = Except.ok (mergeParams s p, none)) := by
  refine ⟨?_, ?_, ?_, ?_, ?_, fun p => rfl⟩ <;>
    first
      | (rw [applyMsg, hs]; simp only [Bool.false_eq_true, if_false])
      | (intro x y v; rw [applyMsg, hs]; simp only [Bool.false_eq_true, if_false])

theorem C6_amended_witness :
    applyMsg Msg.step initState = Except.ok (initState, none) :=
  (C6_amended initState rfl).1

/-- Counterexample to claim C3 as stated: on the 2-by-2 grid (so `W ≥ 2`
and `H ≥ 2`) with the single live cell at `(0, 0)`, the aggregation pass
counts the live cell with multiplicity through the wrapped columns and
rows, so cell `(1, 1) = (W - 1, H - 1)` — one of the eight cells the
claim requires to have count exactly 1 — gets count 4. -/
theorem C3_counterexample :
    (aggregate s22).Nsum (idx s22 1 1) = 4
    ∧ ¬((aggregate s22).Nsum (idx s22 1 1) = 1)
    ∧ s22.W - 1 = 1 ∧ s22.H - 1 = 1 := by
  refine ⟨by decide, by decide, by decide, by decide⟩

theorem idx_eq_zero (s : KState) (hW0 : 0 < s.W) {cx cy : ℤ}
    (h1 : 0 ≤ cx) (h2 : cx < s.W) (h3 : 0 ≤ cy) :
    idx s cx cy = 0 ↔ cx = 0 ∧ cy = 0 := by
  constructor
  · intro h
    have h' : cy * s.W + cx = 0 := h
    rcases lt_or_ge cy 1 with h4 | h4
    · have hcy : cy = 0 := by omega
      subst hcy
      constructor
      · omega
      · rfl
    · exfalso
      have h5 : s.W ≤ cy * s.W := le_mul_of_one_le_left (le_of_lt hW0) h4
      omega
  · rintro ⟨rfl, rfl⟩
    show (0 : ℤ) * s.W + 0 = 0
    ring

set_option maxHeartbeats 2000000 in
/-- Claim C3, amended from `W ≥ 2, H ≥ 2` to `W ≥ 3, H ≥ 3` (so the
wrapped neighbor columns `{0, 1, W-1}` and rows `{0, 1, H-1}` are
distinct and no neighbor is counted with multiplicity): with the single
live cell at `(0, 0)`, the neighbor-alive count the aggregation pass
computes is 1 exactly at the eight wrapped neighbors
`(W-1, H-1), (W-1, 0), (0, H-1), (1, 0), (0, 1), (1, 1), (W-1, 1),
(1, H-1)` and 0 at every other cell. -/
theorem C3_wrap_amended (s : KState) (hW : 3 ≤ s.W) (hH : 3 ≤ s.H)
    (hA : s.A = fun i => if i = 0 then 1 else 0)
    (x y : ℤ) (hx0 : 0 ≤ x) (hxW : x < s.W) (hy0 : 0 ≤ y) (hyH : y < s.H) :
    (aggregate s).Nsum (idx s x y) =
      if (x, y) ∈ [(s.W - 1, s.H - 1), (s.W - 1, 0), (0, s.H - 1), (1, 0),
                   (0, 1), (1, 1), (s.W - 1, 1), (1, s.H - 1)]
      then 1 else 0 := by
  have hW0 : 0 < s.W := by omega
  have hH0 : 0 < s.H := by omega
  have hns : nsumSpec s x y =
      if (x, y) ∈ [(s.W - 1, s.H - 1), (s.W - 1, 0), (0, s.H - 1), (1, 0),
                   (0, 1), (1, 1), (s.W - 1, 1), (1, s.H - 1)]
      then 1 else 0 := by
    simp only [nsumSpec, nbhd, hA, List.map_cons, List.map_nil,
      List.sum_cons, List.sum_nil]
    set xl := if x = 0 then s.W - 1 else x - 1 with hxl
    set xr := if x = s.W - 1 then 0 else x + 1 with hxr
    set yu := if y = 0 then s.H - 1 else y - 1 with hyu
    set yd := if y = s.H - 1 then 0 else y + 1 with hyd
    have hxlb : 0 ≤ xl ∧ xl < s.W := by rw [hxl]; split_ifs <;> omega
    have hxrb : 0 ≤ xr ∧ xr < s.W := by rw [hxr]; split_ifs <;> omega
    have hyub : 0 ≤ yu := by rw [hyu]; split_ifs <;> omega
    have hydb : 0 ≤ yd := by rw [hyd]; split_ifs <;> omega
    have exl : xl = 0 ↔ x = 1 := by rw [hxl]; split_ifs <;> omega
    have exr : xr = 0 ↔ x = s.W - 1 := by rw [hxr]; split_ifs <;> omega
    have eyu : yu = 0 ↔ y = 1 := by rw [hyu]; split_ifs <;> omega
    have eyd : yd = 0 ↔ y = s.H - 1 := by rw [hyd]; split_ifs <;> omega
    have e0 : (if idx s xl yu = 0 then (1 : ℕ) else 0)
        = if x = 1 ∧ y = 1 then 1 else 0 := by
      refine if_congr ?_ rfl rfl
      exact (idx_eq_zero s hW0 hxlb.1 hxlb.2 hyub).trans (and_congr exl eyu)
    have e1 : (if idx s x yu = 0 then (1 : ℕ) else 0)
        = if x = 0 ∧ y = 1 then 1 else 0 := by
      refine if_congr ?_ rfl rfl
      exact (idx_eq_zero s hW0 hx0 hxW hyub).trans (and_congr Iff.rfl eyu)
    have e2 : (if idx s xr yu = 0 then (1 : ℕ) else 0)
        = if x = s.W - 1 ∧ y = 1 then 1 else 0 := by
      refine if_congr ?_ rfl rfl
      exact (idx_eq_zero s hW0 hxrb.1 hxrb.2 hyub).trans (and_congr exr eyu)
    have e3 : (if idx s xl y = 0 then (1 : ℕ) else 0)
        = if x = 1 ∧ y = 0 then 1 else 0 := by
      refine if_congr ?_ rfl rfl
      exact (idx_eq_zero s hW0 hxlb.1 hxlb.2 hy0).trans (and_congr exl Iff.rfl)
    have e5 : (if idx s xr y = 0 then (1 : ℕ) else 0)
        = if x = s.W - 1 ∧ y = 0 then 1 else 0 := by
      refine if_congr ?_ rfl rfl
      exact (idx_eq_zero s hW0 hxrb.1 hxrb.2 hy0).trans (and_congr exr Iff.rfl)
    have e6 : (if idx s xl yd = 0 then (1 : ℕ) else 0)
        = if x = 1 ∧ y = s.H - 1 then 1 else 0 := by
      refine if_congr ?_ rfl rfl
      exact (idx_eq_zero s hW0 hxlb.1 hxlb.2 hydb).trans (and_congr exl eyd)
    have e7 : (if idx s x yd = 0 then (1 : ℕ) else 0)
        = if x = 0 ∧ y = s.H - 1 then 1 else 0 := by
      refine if_congr ?_ rfl rfl
      exact (idx_eq_zero s hW0 hx0 hxW hydb).trans (and_congr Iff.rfl eyd)
    have e8 : (if idx s xr yd = 0 then (1 : ℕ) else 0)
        = if x = s.W - 1 ∧ y = s.H - 1 then 1 else 0 := by
      refine if_congr ?_ rfl rfl
      exact (idx_eq_zero s hW0 hxrb.1 hxrb.2 hydb).trans (and_congr exr eyd)
    rw [e0, e1, e2, e3, e5, e6, e7, e8]
    simp only [List.mem_cons, List.not_mem_nil, or_false, Prod.mk.injEq]
    split_ifs <;> omega
  rw [(aggregate_at s hW0 hH0 x y hx0 hxW hy0 hyH).1, hns]
  split_ifs <;> rfl

theorem C3_wrap_amended_witness :
    (aggregate s33).Nsum (idx s33 1 1) =
      if ((1 : ℤ), (1 : ℤ)) ∈
          [(s33.W - 1, s33.H - 1), (s33.W - 1, 0), (0, s33.H - 1), (1, 0),
           (0, 1), (1, 1), (s33.W - 1, 1), (1, s33.H - 1)]
      then 1 else 0 :=
  C3_wrap_amended s33 (by decide) (by decide) rfl 1 1
    (by decide) (by decide) (by decide) (by decide)

end FertileLife
